import Mathlib

/-!
Verification of the SHA-256 message-schedule gate library and scheduler
(`src/gadget/sha256/table16/gates.rs`, `message_scheduler.rs`).

The prime field `F` is external to the repository; every constant the gates
build is the embedding of a small integer (`F::from_u64`, `-F::one()`), and
the spec guarantees that small integers embed injectively.  We therefore
evaluate every gate polynomial over `ℤ`: an expression is represented by its
value at a given assignment of the queried cells, with `Expression::Ones()`
as `1`, sums, products and negation as the ring operations of `ℤ`.
-/

/-- Mirrors the `numerator` closure of `Gate::lagrange_interpolate`:
starting from `ones`, for every index `i < deg` with `i ≠ idx` it multiplies
by `(-1) * idx + var` (note: the source uses `idx`, not `points[i]`), and
finally multiplies by `eval`. -/
def lagrangeNumerator (deg : ℕ) (var : ℤ) (eval : ℕ) (idx : ℕ) : ℤ :=
  ((List.range deg).foldl
    (fun e i => if i ≠ idx then e * ((-1) * (idx : ℤ) + var) else e) 1) * (eval : ℤ)

/-- Mirrors the integer `denom` accumulator of the `denominator` closure of
`Gate::lagrange_interpolate`: starting from `1`, for every `i < deg` with
`i ≠ idx` it multiplies by `idx - i`. -/
def lagrangeDenom (deg : ℕ) (idx : ℤ) : ℤ :=
  (List.range deg).foldl (fun d i => if (i : ℤ) ≠ idx then d * (idx - (i : ℤ)) else d) 1

/-- Mirrors the field element returned by the `denominator` closure:
`factor / denom` with unsigned (truncating) division, negated when
`denom < 0`. -/
def lagrangeDenomCoeff (factor : ℕ) (deg : ℕ) (idx : ℤ) : ℤ :=
  let denom := lagrangeDenom deg idx
  if denom < 0 then -((factor / (-denom).toNat : ℕ) : ℤ)
  else ((factor / denom.toNat : ℕ) : ℤ)

/-- `Gate::lagrange_interpolate(var, points, evals)`, with the resulting
expression evaluated at `var`.  `factor = deg!`; the expression accumulator
starts at `ones` and adds `numerator(var, evals[idx], idx) * denominator(idx)`
for each index (the `point` component of the iterator is unused in the
source). -/
def lagrange_interpolate (var : ℤ) (points : List ℕ) (evals : List ℕ) : ℕ × ℤ :=
  let deg := points.length
  let factor := Nat.factorial deg
  let expr := (List.range deg).foldl
    (fun e idx =>
      e + lagrangeNumerator deg var (evals.getD idx 0) idx * lagrangeDenomCoeff factor deg idx)
    1
  (factor, expr)

/-- `Gate::range_check(value, lower_range, upper_range)`: starting from
`ones`, multiplies by `(-1) * i + value` for every `i` from `lower_range` to
`upper_range` inclusive. -/
def range_check (value : ℤ) (lower_range upper_range : ℕ) : ℤ :=
  (List.range' lower_range (upper_range + 1 - lower_range)).foldl
    (fun e (i : ℕ) => e * ((-1) * (i : ℤ) + value)) 1

/-- `Gate::two_bit_range_check`. -/
def two_bit_range_check (value : ℤ) : ℤ := range_check value 0 3

/-- `Gate::three_bit_range_check`. -/
def three_bit_range_check (value : ℤ) : ℤ := range_check value 0 7

/-- `Gate::two_bit_spread(dense, spread)`. -/
def two_bit_spread (dense spread : ℤ) : ℤ :=
  let fp := lagrange_interpolate dense [0, 1, 2, 3] [0, 1, 4, 5]
  fp.2 + spread * (fp.1 : ℤ) * (-1)

/-- `Gate::three_bit_spread(dense, spread)`. -/
def three_bit_spread (dense spread : ℤ) : ℤ :=
  let fp := lagrange_interpolate dense [0, 1, 2, 3, 4, 5, 6, 7]
    [0, 1, 4, 5, 16, 17, 20, 21]
  fp.2 + spread * (fp.1 : ℤ) * (-1)

/-- `Gate::s22`: the polynomial registered for the `s22` gate.  The selector
argument `sel` is the value of `query_fixed(s22, 0)`; the source receives it
but does not use it. -/
def s22 (sel dense_0 spread_0 dense_1 spread_1 : ℤ) : ℤ :=
  two_bit_range_check dense_0 + two_bit_range_check dense_1 +
    two_bit_spread dense_0 spread_0 + two_bit_spread dense_1 spread_1

/-- `Gate::s23`: the polynomial registered for the `s23` gate.  As with
`s22`, the selector argument is received but unused in the source. -/
def s23 (sel dense_0 spread_0 dense_1 spread_1 : ℤ) : ℤ :=
  two_bit_range_check dense_0 + three_bit_range_check dense_1 +
    two_bit_spread dense_0 spread_0 + three_bit_spread dense_1 spread_1

/-- `Gate::s_decompose_0`: `(16, 16)`-bit chunks, used for W_0, W_62, W_63. -/
def s_decompose_0 (sel lo hi word : ℤ) : ℤ :=
  sel * (lo + hi * 2 ^ 16 + word * (-1))

/-- `Gate::s_decompose_1`: `(3, 4, 11, 14)`-bit chunks, used for W_1 to W_13. -/
def s_decompose_1 (sel a b c d word : ℤ) : ℤ :=
  sel * (a + b * 2 ^ 3 + c * 2 ^ 7 + d * 2 ^ 18 + word * (-1))

/-- `Gate::s_decompose_2`: `(3, 4, 3, 7, 1, 1, 13)`-bit chunks, used for
W_14 to W_48. -/
def s_decompose_2 (sel a b c d e f g word : ℤ) : ℤ :=
  sel * (a + b * 2 ^ 3 + c * 2 ^ 7 + d * 2 ^ 10 + e * 2 ^ 17 + f * 2 ^ 18 +
    g * 2 ^ 19 + word * (-1))

/-- `Gate::s_decompose_3`: `(10, 7, 2, 13)`-bit chunks, used for W_49 to W_61. -/
def s_decompose_3 (sel a b c d word : ℤ) : ℤ :=
  sel * (a + b * 2 ^ 10 + c * 2 ^ 17 + d * 2 ^ 19 + word * (-1))

/-- `Gate::s_word`: the final word-assembly gate for W_16 to W_63.  The sum
of the reconstruction identity and the carry range check is masked by the
selector. -/
def s_word (sel sigma_0_lo sigma_1_lo w_7_lo w_16_lo sigma_0_hi sigma_1_hi
    w_7_hi w_16_hi word carry : ℤ) : ℤ :=
  let lo := sigma_0_lo + sigma_1_lo + w_7_lo + w_16_lo
  let hi := sigma_0_hi + sigma_1_hi + w_7_hi + w_16_hi
  let word_check := lo + hi * 2 ^ 16 + word * (-1) + carry * (-1) * 2 ^ 32
  let carry_check := range_check carry 0 3
  sel * (word_check + carry_check)

/-- `Gate::s_lower_sigma_0`: sigma_0 v1 on W_1 to W_13, `(3, 4, 11, 14)`-bit
chunks with the 4-bit `b` chunk further split into two 2-bit halves.  The
selector argument is received but unused in the source. -/
def s_lower_sigma_0 (sel spread_r0_even spread_r0_odd spread_r1_even
    spread_r1_odd spread_a spread_b_lo spread_b_hi spread_c spread_d : ℤ) : ℤ :=
  let spread_witness := spread_r0_even + spread_r0_odd * 2 +
    (spread_r1_even + spread_r1_odd * 2) * 2 ^ 32
  let xor_0 := spread_b_lo + spread_b_hi * 2 ^ 4 + spread_c * 2 ^ 8 +
    spread_d * 2 ^ 30
  let xor_1 := spread_c + spread_d * 2 ^ 22 + spread_a * 2 ^ 50 +
    spread_b_lo * 2 ^ 56 + spread_b_hi * 2 ^ 60
  let xor_2 := spread_d + spread_a * 2 ^ 28 + spread_b_lo * 2 ^ 34 +
    spread_b_hi * 2 ^ 38 + spread_c * 2 ^ 42
  spread_witness + (xor_0 + xor_1 + xor_2) * (-1)

/-- The spread (zero-interleaved) encoding from the spec's data model: each
bit of the input is followed by an inserted zero bit, so bit `i` of `n`
lands at bit `2*i` of `spread n`.  This is the mathematical content of the
external `interleave_u16_with_zeros` helper and of the lookup table's
`spread` column. -/
def spread (n : ℕ) : ℕ :=
  if h : n = 0 then 0 else n % 2 + 4 * spread (n / 2)
decreasing_by exact Nat.div_lt_self (Nat.pos_of_ne_zero h) one_lt_two

/-- 32-bit rotate-right by `k` (for `k ≤ 32`), on values below `2^32`. -/
def ror32 (k x : ℕ) : ℕ :=
  x / 2 ^ k + x % 2 ^ k * 2 ^ (32 - k)

/-- The spread-space sum of the three rotated copies of `x` used by SHA-256
sigma_0: rotate-right 7, rotate-right 18 and shift-right 3. -/
def sigma0SpreadSum (x : ℕ) : ℕ :=
  spread (x / 2 ^ 3) + spread (ror32 7 x) + spread (ror32 18 x)

/-! ## Message scheduler (`message_scheduler.rs`) -/

/-- Modelled from the spec: `BLOCK_SIZE` is defined outside `src/`; one
512-bit input block is sixteen 32-bit words. -/
def BLOCK_SIZE : ℕ := 16

/-- Modelled from the spec: `ROUNDS` is defined outside `src/`; the message
schedule consists of 64 words W_0..W_63, one per compression round. -/
def ROUNDS : ℕ := 64

instance : NeZero BLOCK_SIZE := ⟨by decide⟩

/-- Row budgets from `message_scheduler.rs`. -/
def DECOMPOSE_0_ROWS : ℕ := 2
def DECOMPOSE_1_ROWS : ℕ := 2
def DECOMPOSE_2_ROWS : ℕ := 3
def DECOMPOSE_3_ROWS : ℕ := 2
def SIGMA_0_V1_ROWS : ℕ := 4
def SIGMA_0_V2_ROWS : ℕ := 4
def SIGMA_1_V1_ROWS : ℕ := 4
def SIGMA_1_V2_ROWS : ℕ := 4

/-- The single error kind of the assignment phase (`Error::SynthesisError`
from the external `plonk` module). -/
inductive PlonkError where
  | SynthesisError
deriving DecidableEq, Repr

/-- Modelled from the spec: `BlockWord` is defined outside `src/`;
`MessageScheduler::process` only reads its optional concrete 32-bit
`value`. -/
structure BlockWord where
  value : Option ℕ

/-- `MessageWord` from `message_scheduler.rs`: a cell handle plus the
optional concrete value.  The `Cell` handle is modelled by the row index of
the `message_schedule` column at which the word was assigned. -/
structure MessageWord where
  var : ℕ
  value : Option ℕ
deriving DecidableEq, Repr

/-- The possible observable outcomes of running `process`: a normal return
of `Ok(words)`, an `Err` propagated with `?`, or a Rust panic (from
`Option::unwrap` / `Result::unwrap`). -/
inductive SynthOutcome (α : Type) where
  | ok (val : α)
  | err (e : PlonkError)
  | abort
deriving DecidableEq

/-- One `assign_advice(message_schedule, row, closure)` call of `process`:
the closure maps a present value into the field and otherwise returns
`Error::SynthesisError`, which `?` propagates. -/
def assignWordAt (bw : BlockWord) (row : ℕ) : Except PlonkError MessageWord :=
  match bw.value with
  | some v => .ok ⟨row, some v⟩
  | none => .error .SynthesisError

/-- Modelled from the spec: `SpreadVar::new` is defined outside `src/`; it
writes a validated `(tag, dense, spread)` lookup triple and fails with a
synthesis error only when a required concrete value is absent.  `process`
always passes `Some(..)` for dense and spread. -/
def spreadVarNew (dense sprd : Option ℕ) : Except PlonkError Unit :=
  if dense.isSome ∧ sprd.isSome then .ok () else .error .SynthesisError

/-- The body of the `layouter.assign_region` closure of
`MessageScheduler::process`: assigns W_0 (with its two 16-bit lookups) at
row 0, W_1..W_13 at rows `2 + (DECOMPOSE_1_ROWS + SIGMA_0_V1_ROWS)*(i-1)`,
and W_14, W_15 at rows
`2 + 13*(DECOMPOSE_1_ROWS + SIGMA_0_V1_ROWS)
   + (DECOMPOSE_2_ROWS + SIGMA_0_V2_ROWS + SIGMA_1_V2_ROWS)*(i-14) + 1`.
The four loops over W_1..13, W_14..48, W_49..61 and W_17..63 that would lay
out the sigma and word-assembly gates have empty bodies in the source and
are modelled by nothing. -/
def processRegion (input : Fin BLOCK_SIZE → BlockWord) :
    Except PlonkError (List MessageWord) := do
  let v0 := (input 0).value.getD 0
  let w0 ← assignWordAt (input 0) 0
  let _ ← spreadVarNew (some (v0 % 2 ^ 16)) (some (spread (v0 % 2 ^ 16)))
  let _ ← spreadVarNew (some (v0 / 2 ^ 16)) (some (spread (v0 / 2 ^ 16)))
  let ws1 ← ((List.finRange BLOCK_SIZE).drop 1 |>.take 13).mapM
    (fun i => assignWordAt (input i)
      (2 + (DECOMPOSE_1_ROWS + SIGMA_0_V1_ROWS) * (i.val - 1)))
  let ws2 ← ((List.finRange BLOCK_SIZE).drop 14).mapM
    (fun i => assignWordAt (input i)
      (2 + 13 * (DECOMPOSE_1_ROWS + SIGMA_0_V1_ROWS) +
        (DECOMPOSE_2_ROWS + SIGMA_0_V2_ROWS + SIGMA_1_V2_ROWS) * (i.val - 14) + 1))
  pure (w0 :: ws1 ++ ws2)

/-- `MessageScheduler::process`.  Before the region is assigned, the
`input_spread` vector is built with `word.value.unwrap()` on every input
word, which panics when any value is absent.  After the region closure, the
collected vector `w` is converted with `w.try_into().unwrap()` into a
`[MessageWord; ROUNDS]` array, which panics unless `w` has exactly `ROUNDS`
entries. -/
def process (input : Fin BLOCK_SIZE → BlockWord) : SynthOutcome (List MessageWord) :=
  if ∀ i, (input i).value.isSome then
    match processRegion input with
    | .error e => .err e
    | .ok w => if w.length = ROUNDS then .ok w else .abort
  else .abort

/-! ## Helper lemmas -/

theorem spread_zero : spread 0 = 0 := by
  rw [spread]
  norm_num

/-- Unfolding equation for `spread`, valid for every `n`. -/
theorem spread_unfold (n : ℕ) : spread n = n % 2 + 4 * spread (n / 2) := by
  by_cases h : n = 0
  · subst h
    rw [spread_zero]
  · rw [spread]
    simp [h]

/-- Concatenation in spread space: if `u` occupies fewer than `k` dense bits,
the spread encoding of `u + 2^k * v` splits into `spread u` plus `spread v`
shifted by `2*k` bits. -/
theorem spread_append (k u v : ℕ) (h : u < 2 ^ k) :
    spread (u + 2 ^ k * v) = spread u + 4 ^ k * spread v := by
  induction k generalizing u with
  | zero =>
    interval_cases u
    simp [spread_zero]
  | succ k ih =>
    have hp : (2 : ℕ) ^ (k + 1) = 2 * 2 ^ k := by ring
    have hassoc : u + 2 ^ (k + 1) * v = u + 2 * (2 ^ k * v) := by rw [hp]; ring
    rw [spread_unfold (u + 2 ^ (k + 1) * v), hassoc]
    have e1 : (u + 2 * (2 ^ k * v)) % 2 = u % 2 := by omega
    have e2 : (u + 2 * (2 ^ k * v)) / 2 = u / 2 + 2 ^ k * v := by omega
    have hu2 : u / 2 < 2 ^ k := by
      rw [hp] at h
      omega
    rw [e1, e2, ih (u / 2) hu2, spread_unfold u]
    ring

/-- The `[0,3]` range check is the explicit product of the four linear
factors. -/
theorem range_check_0_3 (v : ℤ) :
    range_check v 0 3 = v * (v - 1) * (v - 2) * (v - 3) := by
  unfold range_check
  norm_num [List.range']
  ring

/-! ## Claim theorems -/

/-- Claim C3 (code_bug): evaluating the expression returned by
`lagrange_interpolate(var, [0,1,2,3], [0,1,4,5])` at `var = points[0] = 0`
yields `-167`, not `factor * evals[0] = 24 * 0 = 0`: the source's numerator
closure multiplies by `(var - idx)` instead of `(var - points[i])`, and the
sum accumulator is initialized to `ones` instead of zero. -/
theorem c3_lagrange_interpolate_failing_eval :
    (lagrange_interpolate 0 [0, 1, 2, 3] [0, 1, 4, 5]).1 = Nat.factorial 4 ∧
    (lagrange_interpolate 0 [0, 1, 2, 3] [0, 1, 4, 5]).2 = -167 ∧
    (lagrange_interpolate 0 [0, 1, 2, 3] [0, 1, 4, 5]).2 ≠
      ((lagrange_interpolate 0 [0, 1, 2, 3] [0, 1, 4, 5]).1 : ℤ) * 0 := by
  refine ⟨rfl, by decide, by decide⟩

/-- Claim C4 (code_bug): at the dense value `0` of the 2-bit domain, whose
table-defined zero-interleaving is `0`, `two_bit_spread` evaluates to
`-167`, not `0`; `three_bit_spread` likewise fails to vanish at `(0, 0)`.
Both inherit the broken numerator of `lagrange_interpolate`. -/
theorem c4_spread_gates_nonzero_at_table_pairs :
    two_bit_spread 0 0 = -167 ∧ two_bit_spread 0 0 ≠ 0 ∧
    three_bit_spread 0 0 ≠ 0 := by
  refine ⟨by decide, by decide, by decide⟩

/-- Claim C7 (code_bug): the polynomial the scheduler registers for the
`s22` gate is not masked by its selector: with the selector value `0` and
all four queried advice cells `0` it evaluates to `-334`, not `0`
(`Gate::s22` receives the queried selector but never multiplies by it). -/
theorem c7_s22_unmasked :
    s22 0 0 0 0 0 = -334 ∧ s22 0 0 0 0 0 ≠ 0 := by
  refine ⟨by decide, by decide⟩

/-- Claim C10 (confirmed): for every equally spaced domain `{0,...,n-1}`
with `n ≤ 8` and every sample index `idx < n`, the signed integer
denominator `Π_{i ≠ idx} (idx - i)` is nonzero, its absolute value divides
`factor = n!`, and the field coefficient the source computes from the
truncating division recovers `factor` exactly when multiplied back by the
denominator. -/
theorem c10_lagrange_denominators :
    ∀ n : ℕ, n ≤ 8 → ∀ idx : ℕ, idx < n →
      lagrangeDenom n (idx : ℤ) ≠ 0 ∧
      (lagrangeDenom n (idx : ℤ)).natAbs ∣ Nat.factorial n ∧
      lagrangeDenomCoeff (Nat.factorial n) n (idx : ℤ) * lagrangeDenom n (idx : ℤ) =
        (Nat.factorial n : ℤ) := by
  decide

theorem c10_witness :
    lagrangeDenom 8 ((3 : ℕ) : ℤ) ≠ 0 ∧
    (lagrangeDenom 8 ((3 : ℕ) : ℤ)).natAbs ∣ Nat.factorial 8 ∧
    lagrangeDenomCoeff (Nat.factorial 8) 8 ((3 : ℕ) : ℤ) * lagrangeDenom 8 ((3 : ℕ) : ℤ) =
      (Nat.factorial 8 : ℤ) :=
  c10_lagrange_denominators 8 (by decide) 3 (by decide)

/-- Claim C5 (corrected), counterexample: with the selector at `1`, all
eight 16-bit summands at `65535`, `word = 20` (in 32-bit range) and
`carry = 4`, the `s_word` gate polynomial evaluates to `0` even though
`carry = 4 ∉ {0,1,2,3}` and `word` differs from
`lo + hi*2^16 - carry*2^32`: the gate adds `word_check` and `carry_check`
under one selector, so the word term can absorb the nonzero carry
range-check residue. -/
theorem c5_s_word_counterexample :
    s_word 1 65535 65535 65535 65535 65535 65535 65535 65535 20 4 = 0 ∧
    ¬((20 : ℤ) = 65535 + 65535 + 65535 + 65535 +
        (65535 + 65535 + 65535 + 65535) * 2 ^ 16 - 4 * 2 ^ 32 ∧
      ((4 : ℤ) = 0 ∨ (4 : ℤ) = 1 ∨ (4 : ℤ) = 2 ∨ (4 : ℤ) = 3)) := by
  refine ⟨by decide, by decide⟩

/-- Claim C5 (corrected): with the selector at `1`, the `s_word` polynomial
vanishes exactly when the sum of the reconstruction residue and the carry
range-check product is zero.  In particular it vanishes whenever
`word = lo + hi*2^16 - carry*2^32` with `carry ∈ {0,1,2,3}`, but — as the
counterexample shows — it is not nonzero for every in-range assignment with
`carry = 4`. -/
theorem c5_s_word_amended (sigma_0_lo sigma_1_lo w_7_lo w_16_lo sigma_0_hi
    sigma_1_hi w_7_hi w_16_hi word carry : ℤ) :
    (s_word 1 sigma_0_lo sigma_1_lo w_7_lo w_16_lo sigma_0_hi sigma_1_hi
        w_7_hi w_16_hi word carry = 0 ↔
      (sigma_0_lo + sigma_1_lo + w_7_lo + w_16_lo) +
        (sigma_0_hi + sigma_1_hi + w_7_hi + w_16_hi) * 2 ^ 16 - word -
        carry * 2 ^ 32 + carry * (carry - 1) * (carry - 2) * (carry - 3) = 0) ∧
    ((word = (sigma_0_lo + sigma_1_lo + w_7_lo + w_16_lo) +
        (sigma_0_hi + sigma_1_hi + w_7_hi + w_16_hi) * 2 ^ 16 -
        carry * 2 ^ 32 ∧
      (carry = 0 ∨ carry = 1 ∨ carry = 2 ∨ carry = 3)) →
      s_word 1 sigma_0_lo sigma_1_lo w_7_lo w_16_lo sigma_0_hi sigma_1_hi
        w_7_hi w_16_hi word carry = 0) := by
  have e : s_word 1 sigma_0_lo sigma_1_lo w_7_lo w_16_lo sigma_0_hi
      sigma_1_hi w_7_hi w_16_hi word carry =
      (sigma_0_lo + sigma_1_lo + w_7_lo + w_16_lo) +
        (sigma_0_hi + sigma_1_hi + w_7_hi + w_16_hi) * 2 ^ 16 - word -
        carry * 2 ^ 32 + carry * (carry - 1) * (carry - 2) * (carry - 3) := by
    simp only [s_word, range_check_0_3]
    ring
  constructor
  · rw [e]
  · rintro ⟨hw, hc⟩
    rw [e, hw]
    rcases hc with rfl | rfl | rfl | rfl <;> ring

theorem c5_witness :
    s_word 1 0 0 0 0 0 0 0 0 0 0 = 0 :=
  (c5_s_word_amended 0 0 0 0 0 0 0 0 0 0).2 ⟨by norm_num, Or.inl rfl⟩

/-- Claim C6 (confirmed): for each decomposition gate with its selector at
`1` and chunks honoring the declared bit widths — `(16,16)` for
`s_decompose_0`, `(3,4,11,14)` for `s_decompose_1`, `(3,4,3,7,1,1,13)` for
`s_decompose_2`, `(10,7,2,13)` for `s_decompose_3` — the gate polynomial
vanishes exactly when the sum of each chunk times `2` to its cumulative bit
offset equals `word`, and from any vanishing configuration, incrementing a
single chunk by `1` while holding the others (and `word`) fixed makes the
polynomial nonzero. -/
theorem c6_decompose_gates
    (lo hi word_0 : ℤ) (h0 : 0 ≤ lo ∧ lo < 2 ^ 16 ∧ 0 ≤ hi ∧ hi < 2 ^ 16)
    (a_1 b_1 c_1 d_1 word_1 : ℤ)
    (h1 : 0 ≤ a_1 ∧ a_1 < 2 ^ 3 ∧ 0 ≤ b_1 ∧ b_1 < 2 ^ 4 ∧
      0 ≤ c_1 ∧ c_1 < 2 ^ 11 ∧ 0 ≤ d_1 ∧ d_1 < 2 ^ 14)
    (a_2 b_2 c_2 d_2 e_2 f_2 g_2 word_2 : ℤ)
    (h2 : 0 ≤ a_2 ∧ a_2 < 2 ^ 3 ∧ 0 ≤ b_2 ∧ b_2 < 2 ^ 4 ∧
      0 ≤ c_2 ∧ c_2 < 2 ^ 3 ∧ 0 ≤ d_2 ∧ d_2 < 2 ^ 7 ∧
      0 ≤ e_2 ∧ e_2 < 2 ^ 1 ∧ 0 ≤ f_2 ∧ f_2 < 2 ^ 1 ∧ 0 ≤ g_2 ∧ g_2 < 2 ^ 13)
    (a_3 b_3 c_3 d_3 word_3 : ℤ)
    (h3 : 0 ≤ a_3 ∧ a_3 < 2 ^ 10 ∧ 0 ≤ b_3 ∧ b_3 < 2 ^ 7 ∧
      0 ≤ c_3 ∧ c_3 < 2 ^ 2 ∧ 0 ≤ d_3 ∧ d_3 < 2 ^ 13) :
    ((s_decompose_0 1 lo hi word_0 = 0 ↔ lo + hi * 2 ^ 16 = word_0) ∧
      (lo + hi * 2 ^ 16 = word_0 →
        s_decompose_0 1 (lo + 1) hi word_0 ≠ 0 ∧
        s_decompose_0 1 lo (hi + 1) word_0 ≠ 0)) ∧
    ((s_decompose_1 1 a_1 b_1 c_1 d_1 word_1 = 0 ↔
        a_1 + b_1 * 2 ^ 3 + c_1 * 2 ^ 7 + d_1 * 2 ^ 18 = word_1) ∧
      (a_1 + b_1 * 2 ^ 3 + c_1 * 2 ^ 7 + d_1 * 2 ^ 18 = word_1 →
        s_decompose_1 1 (a_1 + 1) b_1 c_1 d_1 word_1 ≠ 0 ∧
        s_decompose_1 1 a_1 (b_1 + 1) c_1 d_1 word_1 ≠ 0 ∧
        s_decompose_1 1 a_1 b_1 (c_1 + 1) d_1 word_1 ≠ 0 ∧
        s_decompose_1 1 a_1 b_1 c_1 (d_1 + 1) word_1 ≠ 0)) ∧
    ((s_decompose_2 1 a_2 b_2 c_2 d_2 e_2 f_2 g_2 word_2 = 0 ↔
        a_2 + b_2 * 2 ^ 3 + c_2 * 2 ^ 7 + d_2 * 2 ^ 10 + e_2 * 2 ^ 17 +
          f_2 * 2 ^ 18 + g_2 * 2 ^ 19 = word_2) ∧
      (a_2 + b_2 * 2 ^ 3 + c_2 * 2 ^ 7 + d_2 * 2 ^ 10 + e_2 * 2 ^ 17 +
          f_2 * 2 ^ 18 + g_2 * 2 ^ 19 = word_2 →
        s_decompose_2 1 (a_2 + 1) b_2 c_2 d_2 e_2 f_2 g_2 word_2 ≠ 0 ∧
        s_decompose_2 1 a_2 (b_2 + 1) c_2 d_2 e_2 f_2 g_2 word_2 ≠ 0 ∧
        s_decompose_2 1 a_2 b_2 (c_2 + 1) d_2 e_2 f_2 g_2 word_2 ≠ 0 ∧
        s_decompose_2 1 a_2 b_2 c_2 (d_2 + 1) e_2 f_2 g_2 word_2 ≠ 0 ∧
        s_decompose_2 1 a_2 b_2 c_2 d_2 (e_2 + 1) f_2 g_2 word_2 ≠ 0 ∧
        s_decompose_2 1 a_2 b_2 c_2 d_2 e_2 (f_2 + 1) g_2 word_2 ≠ 0 ∧
        s_decompose_2 1 a_2 b_2 c_2 d_2 e_2 f_2 (g_2 + 1) word_2 ≠ 0)) ∧
    ((s_decompose_3 1 a_3 b_3 c_3 d_3 word_3 = 0 ↔
        a_3 + b_3 * 2 ^ 10 + c_3 * 2 ^ 17 + d_3 * 2 ^ 19 = word_3) ∧
      (a_3 + b_3 * 2 ^ 10 + c_3 * 2 ^ 17 + d_3 * 2 ^ 19 = word_3 →
        s_decompose_3 1 (a_3 + 1) b_3 c_3 d_3 word_3 ≠ 0 ∧
        s_decompose_3 1 a_3 (b_3 + 1) c_3 d_3 word_3 ≠ 0 ∧
        s_decompose_3 1 a_3 b_3 (c_3 + 1) d_3 word_3 ≠ 0 ∧
        s_decompose_3 1 a_3 b_3 c_3 (d_3 + 1) word_3 ≠ 0)) := by
  simp only [s_decompose_0, s_decompose_1, s_decompose_2, s_decompose_3]
  norm_num
  omega

theorem c6_witness :
    (s_decompose_0 1 0 0 0 = 0 ↔ (0 : ℤ) + 0 * 2 ^ 16 = 0) :=
  (c6_decompose_gates 0 0 0 (by norm_num) 0 0 0 0 0 (by norm_num)
    0 0 0 0 0 0 0 0 (by norm_num) 0 0 0 0 0 (by norm_num)).1.1

/-- Folding the range-check factors from an arbitrary accumulator is the
accumulator times the product of the factors. -/
theorem range_check_foldl (l : List ℕ) (c v : ℤ) :
    l.foldl (fun e (i : ℕ) => e * ((-1) * (i : ℤ) + v)) c =
      c * (l.map (fun i : ℕ => v - (i : ℤ))).prod := by
  induction l generalizing c with
  | nil => simp
  | cons a t ih =>
    simp only [List.foldl_cons, List.map_cons, List.prod_cons, ih]
    ring

theorem range'_map_prod (n lo : ℕ) (v : ℤ) :
    ((List.range' lo n).map (fun i : ℕ => v - (i : ℤ))).prod =
      ∏ i in Finset.Ico lo (lo + n), (v - (i : ℤ)) := by
  induction n generalizing lo with
  | zero => simp
  | succ n ih =>
    rw [List.range'_succ]
    simp only [List.map_cons, List.prod_cons, ih (lo + 1)]
    rw [Finset.prod_eq_prod_Ico_succ_bot (by omega : lo < lo + (n + 1)),
      show lo + (n + 1) = lo + 1 + n from by omega]

theorem range_check_prod (v : ℤ) (lo hi : ℕ) (h : lo ≤ hi) :
    range_check v lo hi = ∏ i in Finset.Icc lo hi, (v - (i : ℤ)) := by
  unfold range_check
  rw [range_check_foldl, range'_map_prod, one_mul]
  rw [show lo + (hi + 1 - lo) = hi + 1 by omega, Nat.Ico_succ_right]

theorem range_check_zero_iff (v : ℤ) (lo hi : ℕ) (h : lo ≤ hi) :
    range_check v lo hi = 0 ↔ (lo : ℤ) ≤ v ∧ v ≤ (hi : ℤ) := by
  rw [range_check_prod v lo hi h, Finset.prod_eq_zero_iff]
  constructor
  · rintro ⟨i, hmem, hz⟩
    rw [Finset.mem_Icc] at hmem
    omega
  · rintro ⟨h1, h2⟩
    refine ⟨v.toNat, ?_, ?_⟩
    · rw [Finset.mem_Icc]
      omega
    · omega

/-- Claim C9 (confirmed): over the integers — faithful to the field under
the claim's no-collision proviso — `range_check(v, lo, hi)` is the product
of `(v - i)` for `i` from `lo` to `hi`; it vanishes exactly when `v` lies
in `[lo, hi]`, and is nonzero at every integer of `[lo-3, hi+3]` outside
`[lo, hi]`. -/
theorem c9_range_check (v : ℤ) (lo hi : ℕ) (h : lo ≤ hi) :
    range_check v lo hi = ∏ i in Finset.Icc lo hi, (v - (i : ℤ)) ∧
    (range_check v lo hi = 0 ↔ (lo : ℤ) ≤ v ∧ v ≤ (hi : ℤ)) ∧
    (((lo : ℤ) - 3 ≤ v ∧ v ≤ (hi : ℤ) + 3 ∧ ¬((lo : ℤ) ≤ v ∧ v ≤ (hi : ℤ))) →
      range_check v lo hi ≠ 0) := by
  refine ⟨range_check_prod v lo hi h, range_check_zero_iff v lo hi h, ?_⟩
  intro hout hzero
  rw [range_check_zero_iff v lo hi h] at hzero
  exact hout.2.2 hzero

theorem c9_witness :
    range_check 5 0 3 = ∏ i in Finset.Icc 0 3, ((5 : ℤ) - (i : ℤ)) ∧
    (range_check 5 0 3 = 0 ↔ ((0 : ℕ) : ℤ) ≤ 5 ∧ (5 : ℤ) ≤ ((3 : ℕ) : ℤ)) ∧
    ((((0 : ℕ) : ℤ) - 3 ≤ 5 ∧ (5 : ℤ) ≤ ((3 : ℕ) : ℤ) + 3 ∧
        ¬(((0 : ℕ) : ℤ) ≤ 5 ∧ (5 : ℤ) ≤ ((3 : ℕ) : ℤ))) →
      range_check 5 0 3 ≠ 0) :=
  c9_range_check 5 0 3 (by decide)

/-- Claim C2 (confirmed): for a 32-bit word split into chunks
`(a, b, c, d)` of widths `(3, 4, 11, 14)` with `b` split into 2-bit halves
`b_lo`, `b_hi`, when every `spread_*` input is the zero-interleaved
encoding of its chunk, the `s_lower_sigma_0` gate polynomial vanishes
exactly when `spread_r0_even + 2*spread_r0_odd +
(spread_r1_even + 2*spread_r1_odd)*2^32` equals the sum of the spread
encodings of the three rotated copies of the word that sigma_0 uses
(rotate-right 7, rotate-right 18, shift-right 3). -/
theorem c2_s_lower_sigma_0_spread_xor (x a b b_lo b_hi c d : ℕ)
    (sr0e sr0o sr1e sr1o : ℤ)
    (hx32 : x < 2 ^ 32)
    (hx : x = a + 2 ^ 3 * b + 2 ^ 7 * c + 2 ^ 18 * d)
    (ha : a < 2 ^ 3) (hb : b < 2 ^ 4) (hc : c < 2 ^ 11) (hd : d < 2 ^ 14)
    (hbs : b = b_lo + 2 ^ 2 * b_hi) (hbl : b_lo < 2 ^ 2) (hbh : b_hi < 2 ^ 2) :
    s_lower_sigma_0 1 sr0e sr0o sr1e sr1o
        ((spread a : ℕ) : ℤ) ((spread b_lo : ℕ) : ℤ) ((spread b_hi : ℕ) : ℤ)
        ((spread c : ℕ) : ℤ) ((spread d : ℕ) : ℤ) = 0 ↔
      sr0e + sr0o * 2 + (sr1e + sr1o * 2) * 2 ^ 32 =
        ((sigma0SpreadSum x : ℕ) : ℤ) := by
  norm_num at hx ha hb hc hd hbs hbl hbh
  have e1 : x / 2 ^ 3 = b_lo + 2 ^ 2 * (b_hi + 2 ^ 2 * (c + 2 ^ 11 * d)) := by
    norm_num
    omega
  have e2 : ror32 7 x =
      c + 2 ^ 11 * (d + 2 ^ 14 * (a + 2 ^ 3 * (b_lo + 2 ^ 2 * b_hi))) := by
    unfold ror32
    norm_num
    omega
  have e3 : ror32 18 x =
      d + 2 ^ 14 * (a + 2 ^ 3 * (b_lo + 2 ^ 2 * (b_hi + 2 ^ 2 * c))) := by
    unfold ror32
    norm_num
    omega
  have s1 : spread (x / 2 ^ 3) =
      spread b_lo + 4 ^ 2 * (spread b_hi + 4 ^ 2 * (spread c + 4 ^ 11 * spread d)) := by
    rw [e1, spread_append 2 b_lo _ (by omega), spread_append 2 b_hi _ (by omega),
      spread_append 11 c _ (by omega)]
  have s2 : spread (ror32 7 x) =
      spread c + 4 ^ 11 * (spread d + 4 ^ 14 *
        (spread a + 4 ^ 3 * (spread b_lo + 4 ^ 2 * spread b_hi))) := by
    rw [e2, spread_append 11 c _ (by omega), spread_append 14 d _ (by omega),
      spread_append 3 a _ (by omega), spread_append 2 b_lo _ (by omega)]
  have s3 : spread (ror32 18 x) =
      spread d + 4 ^ 14 * (spread a + 4 ^ 3 *
        (spread b_lo + 4 ^ 2 * (spread b_hi + 4 ^ 2 * spread c))) := by
    rw [e3, spread_append 14 d _ (by omega), spread_append 3 a _ (by omega),
      spread_append 2 b_lo _ (by omega), spread_append 2 b_hi _ (by omega)]
  have key : ((sigma0SpreadSum x : ℕ) : ℤ) =
      ((spread b_lo : ℕ) : ℤ) + ((spread b_hi : ℕ) : ℤ) * 2 ^ 4 +
        ((spread c : ℕ) : ℤ) * 2 ^ 8 + ((spread d : ℕ) : ℤ) * 2 ^ 30 +
      (((spread c : ℕ) : ℤ) + ((spread d : ℕ) : ℤ) * 2 ^ 22 +
        ((spread a : ℕ) : ℤ) * 2 ^ 50 + ((spread b_lo : ℕ) : ℤ) * 2 ^ 56 +
        ((spread b_hi : ℕ) : ℤ) * 2 ^ 60) +
      (((spread d : ℕ) : ℤ) + ((spread a : ℕ) : ℤ) * 2 ^ 28 +
        ((spread b_lo : ℕ) : ℤ) * 2 ^ 34 + ((spread b_hi : ℕ) : ℤ) * 2 ^ 38 +
        ((spread c : ℕ) : ℤ) * 2 ^ 42) := by
    unfold sigma0SpreadSum
    rw [s1, s2, s3]
    push_cast
    ring
  simp only [s_lower_sigma_0]
  rw [key]
  constructor <;> intro h <;> linarith

theorem c2_witness :
    s_lower_sigma_0 1 0 0 0 0
        ((spread 0 : ℕ) : ℤ) ((spread 0 : ℕ) : ℤ) ((spread 0 : ℕ) : ℤ)
        ((spread 0 : ℕ) : ℤ) ((spread 0 : ℕ) : ℤ) = 0 ↔
      (0 : ℤ) + 0 * 2 + ((0 : ℤ) + 0 * 2) * 2 ^ 32 =
        ((sigma0SpreadSum 0 : ℕ) : ℤ) :=
  c2_s_lower_sigma_0_spread_xor 0 0 0 0 0 0 0 0 0 0 0 (by norm_num)
    (by norm_num) (by norm_num) (by norm_num) (by norm_num) (by norm_num)
    (by norm_num) (by norm_num) (by norm_num)

theorem exists_mapM_ok {α β : Type} (f : α → Except PlonkError β) (l : List α)
    (h : ∀ a ∈ l, ∃ b, f a = .ok b) :
    ∃ bs, l.mapM f = .ok bs ∧ bs.length = l.length := by
  induction l with
  | nil => exact ⟨[], rfl, rfl⟩
  | cons a t ih =>
    obtain ⟨b, hb⟩ := h a (List.mem_cons_self a t)
    obtain ⟨bs, hbs, hlen⟩ := ih (fun x hx => h x (List.mem_cons_of_mem a hx))
    refine ⟨b :: bs, ?_, by simp [hlen]⟩
    rw [List.mapM_cons, hb, hbs]
    rfl

theorem spreadVarNew_some (x y : ℕ) : spreadVarNew (some x) (some y) = .ok () := by
  simp [spreadVarNew]

theorem except_ok_bind {α β : Type} (a : α) (f : α → Except PlonkError β) :
    (Except.ok a >>= f) = f a := rfl

theorem except_pure_eq {α : Type} (a : α) : (pure a : Except PlonkError α) = .ok a := rfl

/-- Under full witnessing, the region closure succeeds and collects exactly
sixteen message words: W_0, W_1..W_13 and W_14..W_15. -/
theorem processRegion_ok (input : Fin BLOCK_SIZE → BlockWord)
    (h : ∀ i, (input i).value.isSome) :
    ∃ w, processRegion input = .ok w ∧ w.length = 16 := by
  have hok : ∀ (i : Fin BLOCK_SIZE) (r : ℕ), ∃ m, assignWordAt (input i) r = .ok m := by
    intro i r
    rcases hv : (input i).value with _ | v
    · exact absurd (h i) (by simp [hv])
    · exact ⟨⟨r, some v⟩, by simp [assignWordAt, hv]⟩
  obtain ⟨m0, hm0⟩ := hok 0 0
  obtain ⟨ws1, hws1, hlen1⟩ := exists_mapM_ok
    (fun i : Fin BLOCK_SIZE => assignWordAt (input i)
      (2 + (DECOMPOSE_1_ROWS + SIGMA_0_V1_ROWS) * (i.val - 1)))
    ((List.finRange BLOCK_SIZE).drop 1 |>.take 13)
    (fun i _ => hok i _)
  obtain ⟨ws2, hws2, hlen2⟩ := exists_mapM_ok
    (fun i : Fin BLOCK_SIZE => assignWordAt (input i)
      (2 + 13 * (DECOMPOSE_1_ROWS + SIGMA_0_V1_ROWS) +
        (DECOMPOSE_2_ROWS + SIGMA_0_V2_ROWS + SIGMA_1_V2_ROWS) * (i.val - 14) + 1))
    ((List.finRange BLOCK_SIZE).drop 14)
    (fun i _ => hok i _)
  refine ⟨m0 :: ws1 ++ ws2, ?_, ?_⟩
  · simp only [processRegion, hm0, except_ok_bind, spreadVarNew_some, hws1, hws2,
      except_pure_eq]
  · have l1 : ((List.finRange BLOCK_SIZE).drop 1 |>.take 13).length = 13 := by decide
    have l2 : ((List.finRange BLOCK_SIZE).drop 14).length = 2 := by decide
    rw [l1] at hlen1
    rw [l2] at hlen2
    simp [hlen1, hlen2]

/-- Claim C1 (code_bug): for every input block in which all sixteen words
carry a concrete value, `process` does not return `Ok` with 64 words — the
region closure succeeds but collects only sixteen `MessageWord`s (the loops
laying out the derived words W_16..W_63 have empty bodies), so the final
`w.try_into().unwrap()` into a `[MessageWord; ROUNDS]` array panics. -/
theorem c1_process_aborts_with_sixteen_words (input : Fin BLOCK_SIZE → BlockWord)
    (h : ∀ i, (input i).value.isSome) :
    process input = SynthOutcome.abort ∧
    ∃ w, processRegion input = .ok w ∧ w.length = 16 := by
  obtain ⟨w, hw, hlen⟩ := processRegion_ok input h
  refine ⟨?_, w, hw, hlen⟩
  unfold process
  rw [if_pos h, hw]
  simp [hlen, ROUNDS]

theorem c1_witness :
    process (fun _ => ⟨some 0⟩) = SynthOutcome.abort ∧
    ∃ w, processRegion (fun _ => ⟨some 0⟩) = .ok w ∧ w.length = 16 :=
  c1_process_aborts_with_sixteen_words (fun _ => ⟨some 0⟩) (fun _ => rfl)

/-- Claim C8 (code_bug): when any input word lacks a concrete value,
`process` panics at the `word.value.unwrap()` inside the `input_spread`
construction — which runs before any of the `ok_or(Error::SynthesisError)`
closures — instead of returning the `SynthesisError` variant. -/
theorem c8_process_aborts_on_missing_value (input : Fin BLOCK_SIZE → BlockWord)
    (i : Fin BLOCK_SIZE) (h : (input i).value = none) :
    process input = SynthOutcome.abort := by
  unfold process
  rw [if_neg]
  intro hall
  have hi := hall i
  rw [h] at hi
  simp at hi

theorem c8_witness :
    process (fun _ => ⟨none⟩) = SynthOutcome.abort :=
  c8_process_aborts_on_missing_value (fun _ => ⟨none⟩) 0 rfl
